import Mathlib

/-!
Verification development for the kinematic-modeling / inverse-kinematics
subsystem of the robot-arm preview component
(`src/components/LxvInteractivePreview.tsx`).

Embedding conventions.

* JavaScript numbers are embedded as `ℚ`.  All arithmetic the component
  performs itself (vector subtraction, linear interpolation, dot products,
  clamping, scaling by constants) is exact on the finite values the claims
  quantify over, so `ℚ` is a faithful carrier for them.
* Calls into the external THREE.js library that are genuinely
  transcendental (world-pose computation of the end effector, vector
  length, the quaternion-logarithm orientation error, spherical
  interpolation) are abstracted as fields of an `IkModel` structure; every
  theorem quantifies over all such models.  The two numeric constants that
  are derived from `Math.PI` (`IK_ROTATION_TOLERANCE`, `IK_MAX_JOINT_DELTA`)
  are likewise model fields; all other constants are literal rationals from
  the source.
* The DOM layer is embedded by records describing the already-parsed XML
  elements: an attribute is `Option String` (`none` = the attribute or its
  carrying element is absent), and the JavaScript `Number(...)` conversion
  on attribute tokens is an abstract function `String → JsNumber`.
* Mutable joint state (`JointControl.angle`, mutated through
  `setJointAngle`) is embedded by explicit state passing: the mutating
  functions return the updated joint / chain.  The THREE.js group rotation
  that `setJointAngle` also refreshes is derived state (an axis-angle
  rotation of the stored angle) and is subsumed by the abstract world-pose
  function of the model.
-/

attribute [local semireducible] Rat.add Rat.mul Rat.sub Rat.inv Rat.ofScientific

namespace Lxv

/-- Rational arithmetic is kernel-computable; this instance lets concrete
parser results be compared by `decide`. -/
instance {ε α : Type} [DecidableEq ε] [DecidableEq α] : DecidableEq (Except ε α) := fun x y =>
  match x, y with
  | Except.ok a, Except.ok b =>
    if h : a = b then Decidable.isTrue (by rw [h]) else Decidable.isFalse (by simp [h])
  | Except.error a, Except.error b =>
    if h : a = b then Decidable.isTrue (by rw [h]) else Decidable.isFalse (by simp [h])
  | Except.ok _, Except.error _ => Decidable.isFalse (by simp)
  | Except.error _, Except.ok _ => Decidable.isFalse (by simp)

/-- A JavaScript number as produced by `Number(...)`: `NaN`, one of the two
infinities, or a finite value. -/
inductive JsNumber where
  | nan : JsNumber
  | posInf : JsNumber
  | negInf : JsNumber
  | finite : ℚ → JsNumber
deriving DecidableEq

/-- A 3-vector of finite numbers (embedding of `THREE.Vector3` where the
component only ever stores finite values). -/
structure Vec3 where
  x : ℚ
  y : ℚ
  z : ℚ
deriving DecidableEq

/-- A quaternion (embedding of `THREE.Quaternion`); the IK claims treat all
quaternion operations abstractly, so the components are opaque data. -/
structure Quat where
  x : ℚ
  y : ℚ
  z : ℚ
  w : ℚ
deriving DecidableEq

/-- A 3-vector whose components are raw JavaScript numbers, as produced by
`parseVector` (a successfully parsed component may be infinite). -/
structure Vec3J where
  x : JsNumber
  y : JsNumber
  z : JsNumber
deriving DecidableEq

/-- Embedding of `UrdfOrigin`: the `position` comes from the `xyz`
attribute, the `rotation` holds the raw `rpy` Euler components (the source
fixes the Euler order to XYZ). -/
structure UrdfOrigin where
  position : Vec3J
  rotation : Vec3J
deriving DecidableEq

/-- Embedding of `UrdfVisual`. -/
structure UrdfVisual where
  meshFilename : String
  meshScale : Vec3J
  origin : UrdfOrigin
deriving DecidableEq

/-- Embedding of `UrdfLink`. -/
structure UrdfLink where
  visuals : List UrdfVisual
deriving DecidableEq

/-- Embedding of `UrdfJoint`. -/
structure UrdfJoint where
  name : String
  type : String
  parent : String
  child : String
  axis : Vec3J
  origin : UrdfOrigin
  lowerLimit : Option ℚ
  upperLimit : Option ℚ
deriving DecidableEq

/-- Embedding of `ParsedUrdf`.  The two JavaScript `Map`s are embedded as
association lists in insertion order (JavaScript `Map` iteration order). -/
structure ParsedUrdf where
  rootLink : String
  links : List (String × UrdfLink)
  jointsByParent : List (String × List UrdfJoint)
deriving DecidableEq

/-- The `type` of a controllable joint (`"revolute" | "continuous"` in the
source). -/
inductive JointCtrlType where
  | revolute : JointCtrlType
  | continuous : JointCtrlType
deriving DecidableEq

/-- Embedding of `JointControl`.  The `motionGroup` field of the source is
derived state (its rotation is always the axis-angle rotation of the stored
angle) and is subsumed by the abstract world-pose function of `IkModel`. -/
structure JointControl where
  name : String
  type : JointCtrlType
  axis : Vec3
  lowerLimit : Option ℚ
  upperLimit : Option ℚ
  angle : ℚ
deriving DecidableEq

/-- Embedding of `EndEffectorPose`. -/
structure EndEffectorPose where
  position : Vec3
  quaternion : Quat
deriving DecidableEq

/-- Embedding of `clampJointAngle`: continuous joints pass through, other
joints are clamped by `Math.max` against a present lower limit and then by
`Math.min` against a present upper limit. -/
def clampJointAngle (joint : JointControl) (angle : ℚ) : ℚ :=
  match joint.type with
  | JointCtrlType.continuous => angle
  | JointCtrlType.revolute =>
    let afterLower :=
      match joint.lowerLimit with
      | some lower => max angle lower
      | none => angle
    match joint.upperLimit with
    | some upper => min afterLower upper
    | none => afterLower

/-- Embedding of `setJointAngle`: stores the clamped angle.  (The source
also refreshes the motion group's axis-angle rotation from the clamped
angle; that derived state is folded into the abstract world-pose
function.) -/
def setJointAngle (joint : JointControl) (angle : ℚ) : JointControl :=
  { joint with angle := clampJointAngle joint angle }

/-- Embedding of `snapshotJointAngles`. -/
def snapshotJointAngles (controlChain : List JointControl) : List ℚ :=
  controlChain.map (fun joint => joint.angle)

/-- Embedding of `restoreJointAngles`: walks the chain by index, applying
`setJointAngle` with the captured angle; indices past the end of the
captured array are skipped (`undefined` check in the source). -/
def restoreJointAngles : List JointControl → List ℚ → List JointControl
  | [], _ => []
  | joint :: rest, [] => joint :: rest
  | joint :: rest, a :: as => setJointAngle joint a :: restoreJointAngles rest as

/-- Applies a sequence of `setJointAngle` calls to a single joint, in
order (used to state the claims about "any sequence of assignments"). -/
def applyAngleSeq (joint : JointControl) (angles : List ℚ) : JointControl :=
  angles.foldl setJointAngle joint

/-- Replace the element at an index by applying `f` (identity when the
index is out of range). -/
def updateAt {α : Type} : List α → ℕ → (α → α) → List α
  | [], _, _ => []
  | x :: xs, 0, f => f x :: xs
  | x :: xs, n + 1, f => x :: updateAt xs n f

/-- An arbitrary sequence of `setJointAngle` calls against joints of a
chain, each operation naming a chain index and the requested angle. -/
def applySetOps (chain : List JointControl) (ops : List (ℕ × ℚ)) : List JointControl :=
  ops.foldl (fun c op => updateAt c op.1 (fun joint => setJointAngle joint op.2)) chain

/-- Whether a stored angle respects each limit that is present. -/
def withinPresentBoundsB (joint : JointControl) : Bool :=
  (match joint.lowerLimit with
   | some lower => decide (lower ≤ joint.angle)
   | none => true)
  && (match joint.upperLimit with
      | some upper => decide (joint.angle ≤ upper)
      | none => true)

/-- Whether the present limits are ordered (`lower ≤ upper` whenever both
are present). -/
def boundsOrderedB (joint : JointControl) : Bool :=
  match joint.lowerLimit, joint.upperLimit with
  | some lower, some upper => decide (lower ≤ upper)
  | _, _ => true

/-- The immutable data of a joint control node (everything except the
stored angle). -/
def jointStatic (joint : JointControl) :
    String × JointCtrlType × Vec3 × Option ℚ × Option ℚ :=
  (joint.name, joint.type, joint.axis, joint.lowerLimit, joint.upperLimit)

/-! ### The URDF parser

The DOM input is embedded as records of the relevant elements and raw
attribute strings; `none` stands for an absent attribute (or an absent
carrying element, which the source collapses with `?.` / `?? null`).
JavaScript `Number(...)` on an attribute token is an abstract function
`num : String → JsNumber` that every parser theorem quantifies over. -/

/-- A `<visual>` element of a link: the mesh `filename` (already chased
through `geometry`/`mesh`, `none` when that chain does not resolve), the
mesh `scale` attribute and the `origin` element's attributes. -/
structure VisualElement where
  meshFilename : Option String
  meshScale : Option String
  originXyz : Option String
  originRpy : Option String
deriving DecidableEq

/-- A `<link>` element. -/
structure LinkElement where
  name : Option String
  visuals : List VisualElement
deriving DecidableEq

/-- A `<joint>` element with its raw attributes. -/
structure JointElement where
  name : Option String
  type : Option String
  parent : Option String
  child : Option String
  axisXyz : Option String
  originXyz : Option String
  originRpy : Option String
  limitLower : Option String
  limitUpper : Option String
deriving DecidableEq

/-- The contents of the `<robot>` root element, in document order.  (The
source's two earlier failure modes — malformed XML and a missing `<robot>`
element — happen in the DOM layer before any of this structure exists and
are outside this embedding.) -/
structure RobotDoc where
  links : List LinkElement
  joints : List JointElement
deriving DecidableEq

/-- Split a string into its maximal whitespace-free tokens: the embedding
of `raw.trim().split(/\s+/)` (which, composed with the length-3 check in
`parseVector`, agrees with token splitting also on all-whitespace input). -/
def splitWsAux : List Char → List Char → List String
  | [], acc => if acc.isEmpty then [] else [String.mk acc.reverse]
  | c :: cs, acc =>
    if c.isWhitespace then
      if acc.isEmpty then splitWsAux cs [] else String.mk acc.reverse :: splitWsAux cs []
    else splitWsAux cs (c :: acc)

/-- See `splitWsAux`. -/
def splitWs (s : String) : List String :=
  splitWsAux s.data []

/-- Embedding of `parseVector`: falls back when the attribute is absent or
falsy (empty), when there are not exactly three tokens, or when some token
converts to `NaN`. -/
def parseVector (num : String → JsNumber) (raw : Option String) (fallback : Vec3J) : Vec3J :=
  match raw with
  | none => fallback
  | some r =>
    if r = "" then fallback
    else
      match (splitWs r).map num with
      | [a, b, c] =>
        if a = JsNumber.nan ∨ b = JsNumber.nan ∨ c = JsNumber.nan then fallback
        else ⟨a, b, c⟩
      | _ => fallback

/-- Embedding of `parseOptionalFloat`: `none` for an absent attribute and
for a non-finite conversion. -/
def parseOptionalFloat (num : String → JsNumber) (raw : Option String) : Option ℚ :=
  match raw with
  | none => none
  | some s =>
    match num s with
    | JsNumber.finite v => some v
    | _ => none

/-- A finite zero vector (the parse-level fallback `[0, 0, 0]`). -/
def vecZeroJ : Vec3J :=
  ⟨JsNumber.finite 0, JsNumber.finite 0, JsNumber.finite 0⟩

/-- The parse-level fallback `[0, 0, 1]` for a joint axis. -/
def vecAxisDefaultJ : Vec3J :=
  ⟨JsNumber.finite 0, JsNumber.finite 0, JsNumber.finite 1⟩

/-- The parse-level fallback `[1, 1, 1]` for a mesh scale. -/
def vecOneJ : Vec3J :=
  ⟨JsNumber.finite 1, JsNumber.finite 1, JsNumber.finite 1⟩

/-- Embedding of `parseOrigin`, applied to the origin element's `xyz` and
`rpy` attributes. -/
def parseOrigin (num : String → JsNumber) (xyz rpy : Option String) : UrdfOrigin :=
  ⟨parseVector num xyz vecZeroJ, parseVector num rpy vecZeroJ⟩

/-- Association-list lookup (embedding of JavaScript `Map.get`). -/
def getAssoc {α : Type} : List (String × α) → String → Option α
  | [], _ => none
  | (k, v) :: rest, key => if k = key then some v else getAssoc rest key

/-- Association-list update (embedding of JavaScript `Map.set`, which keeps
the original insertion position of an existing key). -/
def setAssoc {α : Type} : List (String × α) → String → α → List (String × α)
  | [], key, v => [(key, v)]
  | (k, w) :: rest, key, v =>
    if k = key then (key, v) :: rest else (k, w) :: setAssoc rest key v

/-- The visual-entry processing of the link loop in `parseUrdf`: an entry
is kept only when it declares a truthy mesh filename. -/
def parseVisualElem (num : String → JsNumber) (v : VisualElement) : Option UrdfVisual :=
  match v.meshFilename with
  | none => none
  | some filename =>
    if filename = "" then none
    else
      some
        { meshFilename := filename
          meshScale := parseVector num v.meshScale vecOneJ
          origin := parseOrigin num v.originXyz v.originRpy }

/-- The link loop of `parseUrdf`: links without a truthy `name` are
skipped; kept links are written into the links map in document order. -/
def parseLinks (num : String → JsNumber) (ls : List LinkElement) : List (String × UrdfLink) :=
  ls.foldl
    (fun acc l =>
      match l.name with
      | none => acc
      | some n =>
        if n = "" then acc
        else setAssoc acc n ⟨l.visuals.filterMap (parseVisualElem num)⟩)
    []

/-- The per-element joint processing in `parseUrdf`: a joint missing a
truthy name, parent link or child link is skipped (`none`); otherwise the
`UrdfJoint` is assembled with the documented defaults. -/
def parseJointElem (num : String → JsNumber) (e : JointElement) : Option UrdfJoint :=
  match e.name, e.parent, e.child with
  | some n, some p, some c =>
    if n = "" ∨ p = "" ∨ c = "" then none
    else
      some
        { name := n
          type := e.type.getD ("fixed")
          parent := p
          child := c
          axis := parseVector num e.axisXyz vecAxisDefaultJ
          origin := parseOrigin num e.originXyz e.originRpy
          lowerLimit := parseOptionalFloat num e.limitLower
          upperLimit := parseOptionalFloat num e.limitUpper }
  | _, _, _ => none

/-- The joint loop of `parseUrdf`: accepted joints are appended to their
parent's bucket in `jointsByParent` and their child link is recorded in the
`childLinks` set (embedded as a list, queried only for membership). -/
def parseJoints (num : String → JsNumber) (js : List JointElement) :
    List (String × List UrdfJoint) × List String :=
  js.foldl
    (fun acc e =>
      match parseJointElem num e with
      | none => acc
      | some j =>
        (setAssoc acc.1 j.parent ((getAssoc acc.1 j.parent).getD [] ++ [j]),
         acc.2 ++ [j.child]))
    ([], [])

/-- Embedding of `parseUrdf` (from the `<robot>` contents on): builds the
links map and the joints-by-parent map, then selects as root the first
declared link that never appears as a joint's child, throwing when there is
none. -/
def parseUrdf (num : String → JsNumber) (doc : RobotDoc) : Except String ParsedUrdf :=
  match ((parseLinks num doc.links).map Prod.fst).find?
      (fun n => !((parseJoints num doc.joints).2.contains n)) with
  | some root =>
    Except.ok ⟨root, parseLinks num doc.links, (parseJoints num doc.joints).1⟩
  | none => Except.error ("Could not find root link in URDF.")

/-- The child joints of a link (`jointsByParent.get(currentLink) ?? []`). -/
def childJointsOf (urdf : ParsedUrdf) (link : String) : List UrdfJoint :=
  (getAssoc urdf.jointsByParent link).getD []

/-- Fuel-indexed embedding of the depth-first search of
`findJointPathToLink`.  The source recursion carries no bound and diverges
on cyclic joint maps; on any structure admitting a decreasing rank (in
particular on every tree) the result is independent of the fuel once the
fuel exceeds the rank of the start link, which is proved below. -/
def findFuel (urdf : ParsedUrdf) : ℕ → String → String → Option (List UrdfJoint)
  | 0, _, _ => none
  | fuel + 1, currentLink, targetLink =>
    if currentLink = targetLink then some []
    else
      (childJointsOf urdf currentLink).findSome?
        (fun joint => (findFuel urdf fuel joint.child targetLink).map
          (fun path => joint :: path))

/-- The total number of joint entries in the joints-by-parent map. -/
def totalJoints (urdf : ParsedUrdf) : ℕ :=
  (urdf.jointsByParent.map (fun kv => kv.2.length)).sum

/-- Embedding of `findJointPathToLink`, run with enough fuel for any
tree-shaped structure (on a tree the descent from any link uses each joint
entry at most once, so `totalJoints + 1` levels suffice). -/
def findJointPathToLink (urdf : ParsedUrdf) (currentLink targetLink : String) :
    Option (List UrdfJoint) :=
  findFuel urdf (totalJoints urdf + 1) currentLink targetLink

/-- The condition under which `parseVector` ignores a present attribute:
not exactly three tokens, or some token converts to `NaN`. -/
def vecMalformed (num : String → JsNumber) : Option String → Prop
  | none => True
  | some r => (splitWs r).length ≠ 3 ∨ ∃ t ∈ splitWs r, num t = JsNumber.nan

/-- The condition under which `parseOptionalFloat` yields `none`: the
attribute is absent or its conversion is not finite. -/
def nonFiniteAttr (num : String → JsNumber) : Option String → Prop
  | none => True
  | some s =>
    match num s with
    | JsNumber.finite _ => False
    | _ => True

instance (num : String → JsNumber) :
    (raw : Option String) → Decidable (vecMalformed num raw)
  | none => Decidable.isTrue trivial
  | some r =>
    inferInstanceAs
      (Decidable ((splitWs r).length ≠ 3 ∨ ∃ t ∈ splitWs r, num t = JsNumber.nan))

instance (num : String → JsNumber) :
    (raw : Option String) → Decidable (nonFiniteAttr num raw)
  | none => Decidable.isTrue trivial
  | some s =>
    match h : num s with
    | JsNumber.nan => Decidable.isTrue (by simp [nonFiniteAttr, h])
    | JsNumber.posInf => Decidable.isTrue (by simp [nonFiniteAttr, h])
    | JsNumber.negInf => Decidable.isTrue (by simp [nonFiniteAttr, h])
    | JsNumber.finite _ => Decidable.isFalse (by simp [nonFiniteAttr, h])

/-! ### The inverse-kinematics solver

The solver's own arithmetic is embedded exactly; the THREE.js calls it
makes (forward kinematics, vector length, the quaternion-logarithm
orientation error, spherical interpolation) and the two `Math.PI`-derived
tolerances are abstract fields of `IkModel`. -/

/-- The abstract geometric environment of one loaded robot: everything the
solver obtains from THREE.js rather than computing itself. -/
structure IkModel where
  /-- `robot.updateMatrixWorld(true)` followed by `getWorldPose(endEffector)`,
  as a pure function of the chain's stored joint angles. -/
  getWorldPose : List ℚ → EndEffectorPose
  /-- `THREE.Vector3.length()`. -/
  vecLength : Vec3 → ℚ
  /-- `orientationError(current, target)`: the rotation vector of the
  relative rotation, via the sign-normalized quaternion logarithm. -/
  orientationError : Quat → Quat → Vec3
  /-- `startQuaternion.clone().slerp(target, scale).normalize()`. -/
  slerpNormalized : Quat → Quat → ℚ → Quat
  /-- `IK_ROTATION_TOLERANCE = degToRad(1.5)` (a `Math.PI`-derived value). -/
  rotationTolerance : ℚ
  /-- `IK_MAX_JOINT_DELTA = degToRad(5)` (a `Math.PI`-derived value). -/
  maxJointDelta : ℚ

/-- `IK_MAX_ITERATIONS = 32`. -/
def IK_MAX_ITERATIONS : ℕ := 32

/-- `IK_JACOBIAN_EPSILON = 1e-4`. -/
def IK_JACOBIAN_EPSILON : ℚ := 1 / 10000

/-- `IK_POSITION_TOLERANCE = 1.2e-3`. -/
def IK_POSITION_TOLERANCE : ℚ := 12 / 10000

/-- `IK_ROTATION_WEIGHT = 0.3`. -/
def IK_ROTATION_WEIGHT : ℚ := 3 / 10

/-- `IK_GAIN = 0.22`. -/
def IK_GAIN : ℚ := 22 / 100

/-- The inline `1e-8` stagnation threshold of the solver loop. -/
def IK_STAGNATION_EPSILON : ℚ := 1 / 100000000

/-- Componentwise vector subtraction (`clone().sub(...)`). -/
def vsub (a b : Vec3) : Vec3 :=
  ⟨a.x - b.x, a.y - b.y, a.z - b.z⟩

/-- Scalar multiplication (`multiplyScalar`). -/
def vscale (v : Vec3) (s : ℚ) : Vec3 :=
  ⟨v.x * s, v.y * s, v.z * s⟩

/-- `THREE.Vector3.lerp(target, alpha)`. -/
def vlerp (a b : Vec3) (t : ℚ) : Vec3 :=
  ⟨a.x + (b.x - a.x) * t, a.y + (b.y - a.y) * t, a.z + (b.z - a.z) * t⟩

/-- `THREE.MathUtils.clamp(value, lo, hi) = Math.max(lo, Math.min(hi, value))`. -/
def clampScalar (value lo hi : ℚ) : ℚ :=
  max lo (min hi value)

/-- The 6-component weighted vector `[p.x, p.y, p.z, r.x*W, r.y*W, r.z*W]`
used both for the error vector and for each Jacobian column. -/
def weighted6 (p r : Vec3) : List ℚ :=
  [p.x, p.y, p.z,
   r.x * IK_ROTATION_WEIGHT, r.y * IK_ROTATION_WEIGHT, r.z * IK_ROTATION_WEIGHT]

/-- Dot product of two coordinate lists (the accumulation loop over the
rows of a Jacobian column). -/
def dotList (a b : List ℚ) : ℚ :=
  (List.zipWith (fun x y => x * y) a b).sum

/-- The Jacobian pass of one solver iteration: for each joint in turn,
perturb its angle by `IK_JACOBIAN_EPSILON` through `setJointAngle`, read
the perturbed world pose of the whole chain, take the finite-difference
column, accumulate its dot product with the weighted error, and restore the
joint through `setJointAngle` with its original angle.  `done` is the
already-processed (restored) prefix of the chain; the function returns the
per-joint raw deltas and the chain after all restores. -/
def jacobianCols (m : IkModel) (currentPose : EndEffectorPose) (weightedError : List ℚ) :
    List JointControl → List JointControl → List ℚ × List JointControl
  | done, [] => ([], done)
  | done, joint :: rest =>
    let originalAngle := joint.angle
    let perturbed := setJointAngle joint (originalAngle + IK_JACOBIAN_EPSILON)
    let perturbedPose :=
      m.getWorldPose ((done ++ perturbed :: rest).map (fun j => j.angle))
    let positionColumn :=
      vscale (vsub perturbedPose.position currentPose.position) (1 / IK_JACOBIAN_EPSILON)
    let rotationColumn :=
      vscale (m.orientationError currentPose.quaternion perturbedPose.quaternion)
        (1 / IK_JACOBIAN_EPSILON)
    let delta := dotList (weighted6 positionColumn rotationColumn) weightedError
    let restored := setJointAngle joint originalAngle
    let res := jacobianCols m currentPose weightedError (done ++ [restored]) rest
    (delta :: res.1, res.2)

/-- The delta-application pass of one solver iteration: each raw delta is
scaled by `IK_GAIN`, clamped to `±IK_MAX_JOINT_DELTA` and applied through
`setJointAngle`; a joint counts as moved when its stored angle changed by
more than the stagnation threshold.  Returns the moved flag and the updated
chain. -/
def applyDeltas (m : IkModel) : List JointControl → List ℚ → Bool × List JointControl
  | [], _ => (false, [])
  | joint :: rest, [] => (false, joint :: rest)
  | joint :: rest, d :: ds =>
    let delta := clampScalar (d * IK_GAIN) (-m.maxJointDelta) m.maxJointDelta
    let previousAngle := joint.angle
    let joint' := setJointAngle joint (previousAngle + delta)
    let moved := decide (IK_STAGNATION_EPSILON < |joint'.angle - previousAngle|)
    let res := applyDeltas m rest ds
    (moved || res.1, joint' :: res.2)

/-- The convergence test at the head of each solver iteration:
`‖positionError‖ ≤ IK_POSITION_TOLERANCE` and
`‖rotationError‖ ≤ IK_ROTATION_TOLERANCE`. -/
def ikConverged (m : IkModel) (targetPosition : Vec3) (targetQuaternion : Quat)
    (chain : List JointControl) : Bool :=
  let currentPose := m.getWorldPose (chain.map (fun j => j.angle))
  let positionError := vsub targetPosition currentPose.position
  let rotationError := m.orientationError currentPose.quaternion targetQuaternion
  decide (m.vecLength positionError ≤ IK_POSITION_TOLERANCE)
    && decide (m.vecLength rotationError ≤ m.rotationTolerance)

/-- The body of one solver iteration after the convergence test: builds the
weighted error, runs the Jacobian pass and applies the deltas.  (The source
computes the current pose once per iteration; here it is recomputed by each
of the pure pieces, with the same value.) -/
def ikIterate (m : IkModel) (targetPosition : Vec3) (targetQuaternion : Quat)
    (chain : List JointControl) : Bool × List JointControl :=
  let currentPose := m.getWorldPose (chain.map (fun j => j.angle))
  let positionError := vsub targetPosition currentPose.position
  let rotationError := m.orientationError currentPose.quaternion targetQuaternion
  let weightedError := weighted6 positionError rotationError
  let jc := jacobianCols m currentPose weightedError [] chain
  applyDeltas m jc.2 jc.1

/-- The iteration loop of `solveIkStep`, by remaining iteration budget:
returns `true` and the chain as soon as the convergence test passes,
otherwise runs one iteration and continues, stopping early (with `false`)
when no joint moved. -/
def ikLoop (m : IkModel) (targetPosition : Vec3) (targetQuaternion : Quat) :
    ℕ → List JointControl → Bool × List JointControl
  | 0, chain => (false, chain)
  | fuel + 1, chain =>
    if ikConverged m targetPosition targetQuaternion chain then (true, chain)
    else
      if (ikIterate m targetPosition targetQuaternion chain).1 then
        ikLoop m targetPosition targetQuaternion fuel
          (ikIterate m targetPosition targetQuaternion chain).2
      else (false, (ikIterate m targetPosition targetQuaternion chain).2)

/-- One observable step of the loop, for stating the convergence claim:
`none` when the loop stops at this state (convergence or stagnation),
otherwise the state the next iteration starts from. -/
def ikNext (m : IkModel) (targetPosition : Vec3) (targetQuaternion : Quat)
    (chain : List JointControl) : Option (List JointControl) :=
  if ikConverged m targetPosition targetQuaternion chain then none
  else
    if (ikIterate m targetPosition targetQuaternion chain).1 then
      some (ikIterate m targetPosition targetQuaternion chain).2
    else none

/-- The chain state at the start of iteration `k` of the loop (`none` when
the loop has already stopped before iteration `k`). -/
def ikTrace (m : IkModel) (targetPosition : Vec3) (targetQuaternion : Quat)
    (chain : List JointControl) : ℕ → Option (List JointControl)
  | 0 => some chain
  | k + 1 => (ikTrace m targetPosition targetQuaternion chain k).bind
      (ikNext m targetPosition targetQuaternion)

/-- The final relaxed check of `solveIkStep`: both errors within twice
their tolerance. -/
def ikRelaxedOk (m : IkModel) (targetPosition : Vec3) (targetQuaternion : Quat)
    (chain : List JointControl) : Bool :=
  let finalPose := m.getWorldPose (chain.map (fun j => j.angle))
  let finalPositionError := m.vecLength (vsub targetPosition finalPose.position)
  let finalRotationError :=
    m.vecLength (m.orientationError finalPose.quaternion targetQuaternion)
  decide (finalPositionError ≤ IK_POSITION_TOLERANCE * 2)
    && decide (finalRotationError ≤ m.rotationTolerance * 2)

/-- Embedding of `solveIkStep`: early `false` on an empty chain; otherwise
run the iteration loop with the full budget, returning `true` on in-loop
convergence and the relaxed verdict otherwise.  The returned chain is the
final joint state (the embedding of the in-place mutation). -/
def solveIkStep (m : IkModel) (controlChain : List JointControl)
    (targetPosition : Vec3) (targetQuaternion : Quat) : Bool × List JointControl :=
  if controlChain.length = 0 then (false, controlChain)
  else
    if (ikLoop m targetPosition targetQuaternion IK_MAX_ITERATIONS controlChain).1 then
      (true, (ikLoop m targetPosition targetQuaternion IK_MAX_ITERATIONS controlChain).2)
    else
      (ikRelaxedOk m targetPosition targetQuaternion
         (ikLoop m targetPosition targetQuaternion IK_MAX_ITERATIONS controlChain).2,
       (ikLoop m targetPosition targetQuaternion IK_MAX_ITERATIONS controlChain).2)

/-- The scale loop of `solveIkToTargetWithRetries`: for each scale, restore
the snapshot, blend the targets toward the start pose by the scale, and
attempt a solve; the first success wins, and after the last failure the
snapshot is restored once more and `false` is returned. -/
def retryLoop (m : IkModel) (targetPosition : Vec3) (targetQuaternion : Quat)
    (startPose : EndEffectorPose) (startAngles : List ℚ) :
    List ℚ → List JointControl → Bool × List JointControl
  | [], chain => (false, restoreJointAngles chain startAngles)
  | scale :: rest, chain =>
    let restored := restoreJointAngles chain startAngles
    let blendedTargetPosition := vlerp startPose.position targetPosition scale
    let blendedTargetQuaternion :=
      m.slerpNormalized startPose.quaternion targetQuaternion scale
    let attempt := solveIkStep m restored blendedTargetPosition blendedTargetQuaternion
    if attempt.1 then (true, attempt.2)
    else retryLoop m targetPosition targetQuaternion startPose startAngles rest attempt.2

/-- Embedding of `solveIkToTargetWithRetries`: snapshot the chain angles
and the start pose, then run the scale loop. -/
def solveIkToTargetWithRetries (m : IkModel) (controlChain : List JointControl)
    (targetPosition : Vec3) (targetQuaternion : Quat) (retryScales : List ℚ) :
    Bool × List JointControl :=
  let startPose := m.getWorldPose (controlChain.map (fun j => j.angle))
  let startAngles := snapshotJointAngles controlChain
  retryLoop m targetPosition targetQuaternion startPose startAngles retryScales controlChain

/-! ### Concrete instances for witnesses and counterexamples -/

/-- The zero vector. -/
def pZero : Vec3 := ⟨0, 0, 0⟩

/-- The unit Z axis. -/
def vZ : Vec3 := ⟨0, 0, 1⟩

/-- The identity quaternion. -/
def qIdent : Quat := ⟨0, 0, 0, 1⟩

/-- A geometric model under which every error norm is the constant 1, so
every convergence and relaxed check fails. -/
def mFail : IkModel :=
  { getWorldPose := fun _ => ⟨pZero, qIdent⟩
    vecLength := fun _ => 1
    orientationError := fun _ _ => pZero
    slerpNormalized := fun q _ _ => q
    rotationTolerance := 1 / 100
    maxJointDelta := 87 / 1000 }

/-- A revolute joint with inverted limits (`lower = 1 > 0 = upper`). -/
def jInv : JointControl :=
  ⟨"joint_inv", JointCtrlType.revolute, vZ, some 1, some 0, 0⟩

/-- A revolute joint whose stored angle `0` violates its lower limit `1`
(the state every controllable joint starts in when its limits exclude 0 and
no assignment has touched it yet). -/
def jLow : JointControl :=
  ⟨"joint_low", JointCtrlType.revolute, vZ, some 1, none, 0⟩

/-- A one-joint chain in the unassigned-out-of-range state. -/
def chainLow : List JointControl := [jLow]

/-- A revolute joint whose stored angle `0` is a fixed point of its clamp
(limits `[-1, 1]`). -/
def jFix : JointControl :=
  ⟨"joint_fix", JointCtrlType.revolute, vZ, some (-1), some 1, 0⟩

/-- A one-joint chain whose angles are clamp fixed points. -/
def chainFix : List JointControl := [jFix]

/-- A number conversion under which every token is `NaN` (no witness
document carries a numeric attribute that must parse). -/
def numNan : String → JsNumber := fun _ => JsNumber.nan

/-- A parsed structure with no joints at all. -/
def urdfEmpty : ParsedUrdf := ⟨"root", [], []⟩

/-- A two-link, one-joint robot document: links `base` and `tip`, joint
`j1` from `base` to `tip` with no optional attributes. -/
def docBasic : RobotDoc :=
  { links := [⟨some ("base"), []⟩, ⟨some ("tip"), []⟩]
    joints := [⟨some ("j1"), none, some ("base"), some ("tip"), none, none, none, none, none⟩] }

/-- The joint `parseUrdf` produces for `docBasic`. -/
def jointBasic : UrdfJoint :=
  ⟨"j1", "fixed", "base", "tip", vecAxisDefaultJ, ⟨vecZeroJ, vecZeroJ⟩, none, none⟩

/-- The structure `parseUrdf` produces for `docBasic`. -/
def parsedBasic : ParsedUrdf :=
  ⟨"base", [("base", ⟨[]⟩), ("tip", ⟨[]⟩)], [("base", [jointBasic])]⟩

/-- A joint element whose axis and limit attributes are all present but
malformed (one axis token; a non-numeric limit token). -/
def elemMalformed : JointElement :=
  ⟨some ("j2"), none, some ("base"), some ("tip"), some ("bad"), none, none, some ("x"), none⟩

/-- The joint `parseJointElem` produces for `elemMalformed`: every
defaulted field. -/
def jointDefaulted : UrdfJoint :=
  ⟨"j2", "fixed", "base", "tip", vecAxisDefaultJ, ⟨vecZeroJ, vecZeroJ⟩, none, none⟩

/-- A joint element with no parent link. -/
def elemNoParent : JointElement :=
  ⟨some ("j3"), some ("revolute"), none, some ("tip"), none, none, none, none, none⟩

/-! ## Helper lemmas -/

theorem jointStatic_setJointAngle (joint : JointControl) (a : ℚ) :
    jointStatic (setJointAngle joint a) = jointStatic joint := rfl

theorem clampJointAngle_congr (j j' : JointControl) (a : ℚ)
    (h : jointStatic j = jointStatic j') :
    clampJointAngle j a = clampJointAngle j' a := by
  obtain ⟨n, t, ax, lo, hi, ang⟩ := j
  obtain ⟨n', t', ax', lo', hi', ang'⟩ := j'
  simp only [jointStatic, Prod.mk.injEq] at h
  obtain ⟨-, ht, -, hlo, hhi⟩ := h
  simp only [clampJointAngle, ht, hlo, hhi]

theorem boundsOrderedB_setJointAngle (joint : JointControl) (a : ℚ) :
    boundsOrderedB (setJointAngle joint a) = boundsOrderedB joint := rfl

theorem withinPresentBoundsB_clamp (joint : JointControl) (a : ℚ)
    (hord : boundsOrderedB joint = true) (hrev : joint.type ≠ JointCtrlType.continuous) :
    withinPresentBoundsB (setJointAngle joint a) = true := by
  obtain ⟨n, t, ax, lo, hi, ang⟩ := joint
  cases t with
  | continuous => exact absurd rfl hrev
  | revolute =>
    cases lo with
    | none =>
      cases hi with
      | none => simp [withinPresentBoundsB, setJointAngle, clampJointAngle]
      | some upper =>
        simp [withinPresentBoundsB, setJointAngle, clampJointAngle, min_le_right]
    | some lower =>
      cases hi with
      | none =>
        simp [withinPresentBoundsB, setJointAngle, clampJointAngle, le_max_right]
      | some upper =>
        have hlu : lower ≤ upper := by
          simpa [boundsOrderedB] using hord
        have h1 : lower ≤ min (max a lower) upper :=
          le_min (le_max_right a lower) hlu
        simp [withinPresentBoundsB, setJointAngle, clampJointAngle, h1, min_le_right]

theorem withinPresentBoundsB_applyAngleSeq :
    ∀ (angles : List ℚ) (joint : JointControl) (a : ℚ),
      boundsOrderedB joint = true → joint.type ≠ JointCtrlType.continuous →
      withinPresentBoundsB (applyAngleSeq joint (a :: angles)) = true
  | [], joint, a, hord, hrev => withinPresentBoundsB_clamp joint a hord hrev
  | b :: angles, joint, a, hord, hrev => by
    have hstep : applyAngleSeq joint (a :: b :: angles)
        = applyAngleSeq (setJointAngle joint a) (b :: angles) := rfl
    rw [hstep]
    exact withinPresentBoundsB_applyAngleSeq angles (setJointAngle joint a) b hord hrev

/-! ## C9: clamping is idempotent -/

/-- C9: joint-angle clamping is idempotent — for every joint control node
and every angle, clamping the already-clamped angle returns the clamped
angle unchanged. -/
theorem clampJointAngle_idempotent (joint : JointControl) (angle : ℚ) :
    clampJointAngle joint (clampJointAngle joint angle) = clampJointAngle joint angle := by
  obtain ⟨n, t, ax, lo, hi, ang⟩ := joint
  cases t with
  | continuous => rfl
  | revolute =>
    cases lo with
    | none =>
      cases hi with
      | none => rfl
      | some upper =>
        simp only [clampJointAngle]
        rw [min_assoc, min_self]
    | some lower =>
      cases hi with
      | none =>
        simp only [clampJointAngle]
        rw [max_assoc, max_self]
      | some upper =>
        simp only [clampJointAngle]
        rcases le_total lower upper with h | h
        · rw [max_eq_left (le_min (le_max_right angle lower) h),
            min_eq_left (min_le_right (max angle lower) upper)]
        · rw [min_eq_right (h.trans (le_max_right angle lower)),
            max_eq_right h, min_eq_right h]

/-! ## C2: limited joints stay within their limits -/

/-- C2 (counterexample): a revolute joint with both limits present but
inverted (`lower = 1 > 0 = upper`) ends up, after the assignment of `1/2`
through `setJointAngle`, storing the angle `0`, which violates the present
lower bound — so the claim fails as stated for joints with unordered
limits. -/
theorem clamp_bounds_counterexample :
    jInv.type ≠ JointCtrlType.continuous ∧ jInv.lowerLimit ≠ none ∧ jInv.upperLimit ≠ none ∧
      withinPresentBoundsB (applyAngleSeq jInv [(1 : ℚ)/2]) = false := by
  refine ⟨by decide, by decide, by decide, by decide⟩

/-- C2 (amended): for every joint control node whose type is not
continuous and whose present limits are ordered (`lower ≤ upper` whenever
both are present), after any nonempty sequence of assignments through
`setJointAngle` the stored angle lies within the bounds that are present;
continuous joints store every assigned angle unchanged, unconditionally
(their clamp ignores the limits). -/
theorem setJointAngle_respects_limits (joint : JointControl) (a : ℚ) (angles : List ℚ) :
    (joint.type ≠ JointCtrlType.continuous → boundsOrderedB joint = true →
       withinPresentBoundsB (applyAngleSeq joint (a :: angles)) = true)
    ∧ (joint.type = JointCtrlType.continuous → (setJointAngle joint a).angle = a) := by
  constructor
  · intro hrev hord
    exact withinPresentBoundsB_applyAngleSeq angles joint a hord hrev
  · intro hcont
    simp [setJointAngle, clampJointAngle, hcont]

/-- C2 (witness): the amended theorem applied to a joint with limits
`[-1, 1]` and the single assignment of `5`. -/
theorem setJointAngle_respects_limits_witness :
    boundsOrderedB jFix = true ∧ withinPresentBoundsB (applyAngleSeq jFix [(5 : ℚ)]) = true :=
  ⟨by decide, (setJointAngle_respects_limits jFix 5 []).1 (by decide) (by decide)⟩

/-! ## C6: snapshot / restore round-trip -/

theorem updateAt_map_jointStatic :
    ∀ (c : List JointControl) (i : ℕ) (a : ℚ),
      (updateAt c i (fun j => setJointAngle j a)).map jointStatic = c.map jointStatic
  | [], _, _ => rfl
  | _ :: _, 0, _ => by simp [updateAt, jointStatic_setJointAngle]
  | x :: xs, i + 1, a => by
    simp [updateAt, updateAt_map_jointStatic xs i a]

theorem applySetOps_map_jointStatic :
    ∀ (ops : List (ℕ × ℚ)) (c : List JointControl),
      (applySetOps c ops).map jointStatic = c.map jointStatic
  | [], _ => rfl
  | op :: ops, c => by
    have hstep : applySetOps c (op :: ops)
        = applySetOps (updateAt c op.1 (fun j => setJointAngle j op.2)) ops := rfl
    rw [hstep, applySetOps_map_jointStatic ops _, updateAt_map_jointStatic]

theorem restoreJointAngles_map_angle :
    ∀ (c base : List JointControl),
      c.map jointStatic = base.map jointStatic →
      (∀ j ∈ base, clampJointAngle j j.angle = j.angle) →
      (restoreJointAngles c (base.map (fun j => j.angle))).map (fun j => j.angle)
        = base.map (fun j => j.angle)
  | [], [], _, _ => rfl
  | [], _ :: _, h, _ => by simp at h
  | _ :: _, [], h, _ => by simp at h
  | c :: cs, b :: bs, h, hfix => by
    simp only [List.map_cons, List.cons.injEq] at h
    obtain ⟨hhead, htail⟩ := h
    simp only [List.map_cons, restoreJointAngles, List.cons.injEq]
    constructor
    · show clampJointAngle c b.angle = b.angle
      rw [clampJointAngle_congr c b b.angle hhead]
      exact hfix b (List.mem_cons_self b bs)
    · exact restoreJointAngles_map_angle cs bs htail
        (fun j hj => hfix j (List.mem_cons_of_mem b hj))

/-- C6 (counterexample): on a chain whose single joint stores angle `0`
outside its limits (`lower = 1`), capturing, mutating with one assignment
and restoring does not reproduce the captured angle: the restore runs
through the clamping `setJointAngle` and stores `1` instead of `0`. -/
theorem snapshot_restore_counterexample :
    (restoreJointAngles (applySetOps chainLow [((0 : ℕ), (5 : ℚ))])
        (snapshotJointAngles chainLow)).map (fun j => j.angle)
      ≠ snapshotJointAngles chainLow := by decide

/-- C6 (amended): when every captured angle is a fixed point of its
joint's clamp (in particular whenever each stored angle already respects
the joint's limits), capturing with `snapshotJointAngles`, mutating with an
arbitrary sequence of `setJointAngle` calls and restoring with
`restoreJointAngles` reproduces every captured angle exactly. -/
theorem snapshot_restore_roundtrip (chain : List JointControl) (ops : List (ℕ × ℚ))
    (hfix : ∀ j ∈ chain, clampJointAngle j j.angle = j.angle) :
    (restoreJointAngles (applySetOps chain ops) (snapshotJointAngles chain)).map
        (fun j => j.angle) = snapshotJointAngles chain := by
  have hstatic := applySetOps_map_jointStatic ops chain
  simpa [snapshotJointAngles] using
    restoreJointAngles_map_angle (applySetOps chain ops) chain hstatic hfix

/-- C6 (witness): the amended theorem applied to a one-joint chain with
in-range captured angle and one mutating assignment. -/
theorem snapshot_restore_roundtrip_witness :
    (∀ j ∈ chainFix, clampJointAngle j j.angle = j.angle) ∧
      (restoreJointAngles (applySetOps chainFix [((0 : ℕ), (5 : ℚ))])
          (snapshotJointAngles chainFix)).map (fun j => j.angle)
        = snapshotJointAngles chainFix :=
  ⟨by decide, snapshot_restore_roundtrip chainFix [((0 : ℕ), (5 : ℚ))] (by decide)⟩

/-! ## C10: the solver short-circuits on an empty chain -/

/-- C10: called with an empty control chain, `solveIkStep` returns `false`
immediately and leaves the joint state untouched; the result is the same
for every geometric model and every target, so no forward-kinematics
evaluation or iteration contributes to it. -/
theorem solveIkStep_empty_chain (m : IkModel) (targetPosition : Vec3)
    (targetQuaternion : Quat) :
    solveIkStep m [] targetPosition targetQuaternion = (false, []) := rfl

/-! ## Static data is preserved through the solver -/

theorem applyDeltas_map_jointStatic (m : IkModel) :
    ∀ (js : List JointControl) (ds : List ℚ),
      ((applyDeltas m js ds).2).map jointStatic = js.map jointStatic
  | [], _ => rfl
  | _ :: _, [] => rfl
  | j :: js, d :: ds => by
    simp [applyDeltas, jointStatic_setJointAngle, applyDeltas_map_jointStatic m js ds]

theorem jacobianCols_map_jointStatic (m : IkModel) (cp : EndEffectorPose) (we : List ℚ) :
    ∀ (rest done : List JointControl),
      ((jacobianCols m cp we done rest).2).map jointStatic
        = done.map jointStatic ++ rest.map jointStatic
  | [], done => by simp [jacobianCols]
  | joint :: rest, done => by
    simp only [jacobianCols]
    rw [jacobianCols_map_jointStatic m cp we rest (done ++ [setJointAngle joint joint.angle])]
    simp [jointStatic_setJointAngle]

theorem ikIterate_map_jointStatic (m : IkModel) (tp : Vec3) (tq : Quat)
    (c : List JointControl) :
    ((ikIterate m tp tq c).2).map jointStatic = c.map jointStatic := by
  simp only [ikIterate]
  rw [applyDeltas_map_jointStatic, jacobianCols_map_jointStatic]
  simp

theorem ikLoop_map_jointStatic (m : IkModel) (tp : Vec3) (tq : Quat) :
    ∀ (fuel : ℕ) (c : List JointControl),
      ((ikLoop m tp tq fuel c).2).map jointStatic = c.map jointStatic
  | 0, _ => rfl
  | fuel + 1, c => by
    simp only [ikLoop]
    by_cases hc : ikConverged m tp tq c = true
    · rw [if_pos hc]
    · rw [if_neg hc]
      by_cases hm : (ikIterate m tp tq c).1 = true
      · rw [if_pos hm, ikLoop_map_jointStatic m tp tq fuel _, ikIterate_map_jointStatic]
      · rw [if_neg hm]
        exact ikIterate_map_jointStatic m tp tq c

theorem solveIkStep_map_jointStatic (m : IkModel) (c : List JointControl)
    (tp : Vec3) (tq : Quat) :
    ((solveIkStep m c tp tq).2).map jointStatic = c.map jointStatic := by
  simp only [solveIkStep]
  by_cases h0 : c.length = 0
  · rw [if_pos h0]
  · rw [if_neg h0]
    by_cases hl : (ikLoop m tp tq IK_MAX_ITERATIONS c).1 = true
    · rw [if_pos hl]
      exact ikLoop_map_jointStatic m tp tq IK_MAX_ITERATIONS c
    · rw [if_neg hl]
      exact ikLoop_map_jointStatic m tp tq IK_MAX_ITERATIONS c

theorem restoreJointAngles_map_jointStatic :
    ∀ (c : List JointControl) (as : List ℚ),
      (restoreJointAngles c as).map jointStatic = c.map jointStatic
  | [], _ => rfl
  | _ :: _, [] => rfl
  | c :: cs, a :: as => by
    simp [restoreJointAngles, jointStatic_setJointAngle,
      restoreJointAngles_map_jointStatic cs as]

/-! ## C1: failed retries roll the joints back to the snapshot -/

theorem retryLoop_false_restores (m : IkModel) (tp : Vec3) (tq : Quat)
    (sp : EndEffectorPose) (base : List JointControl)
    (hfix : ∀ j ∈ base, clampJointAngle j j.angle = j.angle) :
    ∀ (scales : List ℚ) (c : List JointControl),
      c.map jointStatic = base.map jointStatic →
      (retryLoop m tp tq sp (base.map (fun j => j.angle)) scales c).1 = false →
      ((retryLoop m tp tq sp (base.map (fun j => j.angle)) scales c).2).map (fun j => j.angle)
        = base.map (fun j => j.angle)
  | [], c, hstatic, _ => by
    simp only [retryLoop]
    exact restoreJointAngles_map_angle c base hstatic hfix
  | scale :: rest, c, hstatic, hfail => by
    simp only [retryLoop] at hfail ⊢
    by_cases hs : (solveIkStep m (restoreJointAngles c (base.map (fun j => j.angle)))
        (vlerp sp.position tp scale) (m.slerpNormalized sp.quaternion tq scale)).1 = true
    · rw [if_pos hs] at hfail
      simp at hfail
    · rw [if_neg hs] at hfail ⊢
      refine retryLoop_false_restores m tp tq sp base hfix rest _ ?_ hfail
      rw [solveIkStep_map_jointStatic, restoreJointAngles_map_jointStatic]
      exact hstatic

/-- C1 (counterexample): a one-joint chain whose stored angle `0` violates
its lower limit `1`, together with a geometric model under which every
solve attempt fails, makes the retry wrapper report failure while the
final restore stores the clamped angle `1` instead of the captured `0` —
so the claim fails as stated for pre-call angles outside the limits. -/
theorem retries_rollback_counterexample :
    ([(1 : ℚ)] ≠ ([] : List ℚ)) ∧
      (solveIkToTargetWithRetries mFail chainLow pZero qIdent [1]).1 = false ∧
      ((solveIkToTargetWithRetries mFail chainLow pZero qIdent [1]).2).map (fun j => j.angle)
        ≠ snapshotJointAngles chainLow := by
  refine ⟨by decide, by decide, by decide⟩

/-- C1 (amended): for every target pose and every (in particular every
nonempty) list of retry scales, when each joint's pre-call angle is a fixed
point of its clamp (in particular whenever it respects the joint's limits),
a failing `solveIkToTargetWithRetries` returns with every joint of the
chain storing exactly the angle captured in the pre-attempt snapshot. -/
theorem retries_failure_restores_snapshot (m : IkModel) (controlChain : List JointControl)
    (targetPosition : Vec3) (targetQuaternion : Quat) (retryScales : List ℚ)
    (hscales : retryScales ≠ [])
    (hfix : ∀ j ∈ controlChain, clampJointAngle j j.angle = j.angle)
    (hfail : (solveIkToTargetWithRetries m controlChain targetPosition targetQuaternion
        retryScales).1 = false) :
    ((solveIkToTargetWithRetries m controlChain targetPosition targetQuaternion
        retryScales).2).map (fun j => j.angle) = snapshotJointAngles controlChain := by
  have h := retryLoop_false_restores m targetPosition targetQuaternion
    (m.getWorldPose (controlChain.map (fun j => j.angle))) controlChain hfix
    retryScales controlChain rfl
    (by simpa [solveIkToTargetWithRetries, snapshotJointAngles] using hfail)
  simpa [solveIkToTargetWithRetries, snapshotJointAngles] using h

/-- C1 (witness): the amended theorem applied to the always-failing model
on a chain whose pre-call angle respects its limits. -/
theorem retries_failure_restores_snapshot_witness :
    ([(1 : ℚ)] ≠ ([] : List ℚ)) ∧
      ((solveIkToTargetWithRetries mFail chainFix pZero qIdent [1]).2).map (fun j => j.angle)
        = snapshotJointAngles chainFix :=
  ⟨by decide, retries_failure_restores_snapshot mFail chainFix pZero qIdent [1]
    (by decide) (by decide) (by decide)⟩

/-! ## C3: the solver's success verdict -/

theorem ikTrace_succ_shift (m : IkModel) (tp : Vec3) (tq : Quat)
    (c c' : List JointControl) (h : ikNext m tp tq c = some c') :
    ∀ k, ikTrace m tp tq c (k + 1) = ikTrace m tp tq c' k
  | 0 => by simp [ikTrace, h]
  | k + 1 => by
    have hk := ikTrace_succ_shift m tp tq c c' h k
    show (ikTrace m tp tq c (k + 1)).bind (ikNext m tp tq)
        = (ikTrace m tp tq c' k).bind (ikNext m tp tq)
    rw [hk]

theorem ikTrace_none_after_stop (m : IkModel) (tp : Vec3) (tq : Quat)
    (c : List JointControl) (h : ikNext m tp tq c = none) :
    ∀ k, ikTrace m tp tq c (k + 1) = none
  | 0 => by simp [ikTrace, h]
  | k + 1 => by
    show (ikTrace m tp tq c (k + 1)).bind (ikNext m tp tq) = none
    rw [ikTrace_none_after_stop m tp tq c h k]
    rfl

theorem ikLoop_true_iff (m : IkModel) (tp : Vec3) (tq : Quat) :
    ∀ (fuel : ℕ) (c : List JointControl),
      (ikLoop m tp tq fuel c).1 = true ↔
        ∃ k, k < fuel ∧ ∃ s, ikTrace m tp tq c k = some s ∧ ikConverged m tp tq s = true
  | 0, c => by simp [ikLoop]
  | fuel + 1, c => by
    by_cases hc : ikConverged m tp tq c = true
    · have hloop : (ikLoop m tp tq (fuel + 1) c).1 = true := by simp [ikLoop, hc]
      rw [hloop]
      constructor
      · intro _
        exact ⟨0, Nat.succ_pos fuel, c, rfl, hc⟩
      · intro _
        rfl
    · by_cases hm : (ikIterate m tp tq c).1 = true
      · have hnext : ikNext m tp tq c = some (ikIterate m tp tq c).2 := by
          simp [ikNext, hc, hm]
        have hloop : (ikLoop m tp tq (fuel + 1) c).1
            = (ikLoop m tp tq fuel (ikIterate m tp tq c).2).1 := by
          simp [ikLoop, hc, hm]
        rw [hloop, ikLoop_true_iff m tp tq fuel _]
        constructor
        · rintro ⟨k, hk, s, hs, hconv⟩
          refine ⟨k + 1, Nat.succ_lt_succ hk, s, ?_, hconv⟩
          rw [ikTrace_succ_shift m tp tq c _ hnext k]
          exact hs
        · rintro ⟨k, hk, s, hs, hconv⟩
          cases k with
          | zero =>
            obtain rfl : c = s := by simpa [ikTrace] using hs
            exact absurd hconv hc
          | succ k =>
            rw [ikTrace_succ_shift m tp tq c _ hnext k] at hs
            exact ⟨k, Nat.lt_of_succ_lt_succ hk, s, hs, hconv⟩
      · have hnext : ikNext m tp tq c = none := by simp [ikNext, hc, hm]
        have hloop : (ikLoop m tp tq (fuel + 1) c).1 = false := by simp [ikLoop, hc, hm]
        rw [hloop]
        constructor
        · intro hfalse
          exact absurd hfalse (by simp)
        · rintro ⟨k, hk, s, hs, hconv⟩
          cases k with
          | zero =>
            obtain rfl : c = s := by simpa [ikTrace] using hs
            exact absurd hconv hc
          | succ k =>
            rw [ikTrace_none_after_stop m tp tq c hnext k] at hs
            exact Option.noConfusion hs

/-- C3: `solveIkStep` (on a nonempty chain) returns `true` exactly when
either some iteration the loop actually reaches within the
`IK_MAX_ITERATIONS` budget starts in a state whose position and
orientation errors are within `IK_POSITION_TOLERANCE` and
`IK_ROTATION_TOLERANCE`, or no reached iteration converges (the budget is
exhausted or the loop stops early from stagnation) and the final state's
errors are within the tolerances relaxed by the fixed factor 2. -/
theorem solveIkStep_true_iff (m : IkModel) (controlChain : List JointControl)
    (targetPosition : Vec3) (targetQuaternion : Quat) (h : controlChain ≠ []) :
    ((solveIkStep m controlChain targetPosition targetQuaternion).1 = true ↔
      ((∃ k, k < IK_MAX_ITERATIONS ∧ ∃ s,
          ikTrace m targetPosition targetQuaternion controlChain k = some s ∧
          ikConverged m targetPosition targetQuaternion s = true)
       ∨ ((¬ ∃ k, k < IK_MAX_ITERATIONS ∧ ∃ s,
            ikTrace m targetPosition targetQuaternion controlChain k = some s ∧
            ikConverged m targetPosition targetQuaternion s = true)
          ∧ ikRelaxedOk m targetPosition targetQuaternion
              (solveIkStep m controlChain targetPosition targetQuaternion).2 = true))) := by
  have h0 : ¬ controlChain.length = 0 := by
    simpa [List.length_eq_zero] using h
  by_cases hl : (ikLoop m targetPosition targetQuaternion IK_MAX_ITERATIONS controlChain).1
      = true
  · have hres : solveIkStep m controlChain targetPosition targetQuaternion
        = (true,
           (ikLoop m targetPosition targetQuaternion IK_MAX_ITERATIONS controlChain).2) := by
      simp [solveIkStep, h0, hl]
    rw [hres]
    have hex := (ikLoop_true_iff m targetPosition targetQuaternion
      IK_MAX_ITERATIONS controlChain).mp hl
    constructor
    · intro _
      exact Or.inl hex
    · intro _
      rfl
  · have hres : solveIkStep m controlChain targetPosition targetQuaternion
        = (ikRelaxedOk m targetPosition targetQuaternion
             (ikLoop m targetPosition targetQuaternion IK_MAX_ITERATIONS controlChain).2,
           (ikLoop m targetPosition targetQuaternion IK_MAX_ITERATIONS controlChain).2) := by
      simp [solveIkStep, h0, hl]
    rw [hres]
    have hnex : ¬ ∃ k, k < IK_MAX_ITERATIONS ∧ ∃ s,
        ikTrace m targetPosition targetQuaternion controlChain k = some s ∧
        ikConverged m targetPosition targetQuaternion s = true := by
      rw [← ikLoop_true_iff m targetPosition targetQuaternion IK_MAX_ITERATIONS controlChain]
      exact hl
    constructor
    · intro hrel
      exact Or.inr ⟨hnex, hrel⟩
    · rintro (hex | ⟨-, hrel⟩)
      · exact absurd hex hnex
      · exact hrel

/-- C3 (witness): the characterization applied to the always-failing model
on a concrete one-joint chain. -/
theorem solveIkStep_true_iff_witness :
    ((solveIkStep mFail chainFix pZero qIdent).1 = true ↔
      ((∃ k, k < IK_MAX_ITERATIONS ∧ ∃ s,
          ikTrace mFail pZero qIdent chainFix k = some s ∧
          ikConverged mFail pZero qIdent s = true)
       ∨ ((¬ ∃ k, k < IK_MAX_ITERATIONS ∧ ∃ s,
            ikTrace mFail pZero qIdent chainFix k = some s ∧
            ikConverged mFail pZero qIdent s = true)
          ∧ ikRelaxedOk mFail pZero qIdent
              (solveIkStep mFail chainFix pZero qIdent).2 = true))) :=
  solveIkStep_true_iff mFail chainFix pZero qIdent (by decide)

/-! ## C7: parse defaults for axis, origin and limits -/

theorem parseVector_malformed (num : String → JsNumber) (raw : Option String) (fb : Vec3J)
    (h : vecMalformed num raw) : parseVector num raw fb = fb := by
  cases raw with
  | none => rfl
  | some r =>
    simp only [vecMalformed] at h
    by_cases hr : r = ""
    · simp [parseVector, hr]
    · simp only [parseVector, if_neg hr]
      rcases hsp : splitWs r with - | ⟨a, l1⟩
      · rfl
      rcases l1 with - | ⟨b, l2⟩
      · rfl
      rcases l2 with - | ⟨c, l3⟩
      · rfl
      rcases l3 with - | ⟨d, l4⟩
      · rw [hsp] at h
        rcases h with hlen | ⟨t, ht, hnan⟩
        · simp at hlen
        · have hcases : num a = JsNumber.nan ∨ num b = JsNumber.nan ∨ num c = JsNumber.nan := by
            simp only [List.mem_cons, List.not_mem_nil, or_false] at ht
            rcases ht with rfl | rfl | rfl
            · exact Or.inl hnan
            · exact Or.inr (Or.inl hnan)
            · exact Or.inr (Or.inr hnan)
          show (if num a = JsNumber.nan ∨ num b = JsNumber.nan ∨ num c = JsNumber.nan
              then fb else ⟨num a, num b, num c⟩) = fb
          rw [if_pos hcases]
      · rfl

theorem parseOptionalFloat_nonfinite (num : String → JsNumber) (raw : Option String)
    (h : nonFiniteAttr num raw) : parseOptionalFloat num raw = none := by
  cases raw with
  | none => rfl
  | some s =>
    simp only [nonFiniteAttr] at h
    simp only [parseOptionalFloat]
    cases hn : num s with
    | nan => rfl
    | posInf => rfl
    | negInf => rfl
    | finite q =>
      rw [hn] at h
      exact h.elim

/-- C7: whenever a joint element is accepted by the parser, a missing or
malformed (wrong token count or `NaN` token) axis attribute yields the
default axis `(0, 0, 1)`, missing or malformed origin attributes yield zero
translation and rotation, and a missing or non-finite limit attribute
yields an unbounded (`none`) limit. -/
theorem parseJoint_defaults (num : String → JsNumber) (e : JointElement) (j : UrdfJoint)
    (h : parseJointElem num e = some j) :
    (vecMalformed num e.axisXyz → j.axis = vecAxisDefaultJ)
    ∧ (vecMalformed num e.originXyz → j.origin.position = vecZeroJ)
    ∧ (vecMalformed num e.originRpy → j.origin.rotation = vecZeroJ)
    ∧ (nonFiniteAttr num e.limitLower → j.lowerLimit = none)
    ∧ (nonFiniteAttr num e.limitUpper → j.upperLimit = none) := by
  cases hn : e.name with
  | none => simp [parseJointElem, hn] at h
  | some n =>
    cases hp : e.parent with
    | none => simp [parseJointElem, hn, hp] at h
    | some p =>
      cases hc : e.child with
      | none => simp [parseJointElem, hn, hp, hc] at h
      | some c =>
        simp only [parseJointElem, hn, hp, hc] at h
        by_cases hguard : n = "" ∨ p = "" ∨ c = ""
        · rw [if_pos hguard] at h
          exact Option.noConfusion h
        · rw [if_neg hguard] at h
          obtain rfl := Option.some.inj h
          exact ⟨fun hm => parseVector_malformed num e.axisXyz vecAxisDefaultJ hm,
                 fun hm => parseVector_malformed num e.originXyz vecZeroJ hm,
                 fun hm => parseVector_malformed num e.originRpy vecZeroJ hm,
                 fun hm => parseOptionalFloat_nonfinite num e.limitLower hm,
                 fun hm => parseOptionalFloat_nonfinite num e.limitUpper hm⟩

/-- C7 (witness): the defaults theorem applied to a concrete element whose
axis attribute has one token and whose lower-limit attribute is not a
number. -/
theorem parseJoint_defaults_witness :
    jointDefaulted.axis = vecAxisDefaultJ ∧ jointDefaulted.lowerLimit = none :=
  ⟨(parseJoint_defaults numNan elemMalformed jointDefaulted (by decide)).1 (by decide),
   (parseJoint_defaults numNan elemMalformed jointDefaulted (by decide)).2.2.2.1 (by decide)⟩

/-! ## C8: joints missing required attributes are skipped silently -/

/-- C8: a joint element lacking a name, a parent link or a child link is
skipped without an error: parsing the document with the element spliced
anywhere into the joint list gives exactly the same result (same links,
same joints-by-parent map, same root or failure) as parsing the document
without it. -/
theorem parseUrdf_skips_incomplete_joint (num : String → JsNumber) (ls : List LinkElement)
    (pre post : List JointElement) (e : JointElement)
    (h : e.name = none ∨ e.parent = none ∨ e.child = none) :
    parseUrdf num ⟨ls, pre ++ e :: post⟩ = parseUrdf num ⟨ls, pre ++ post⟩ := by
  have hskip : parseJointElem num e = none := by
    cases hn : e.name <;> cases hp : e.parent <;> cases hc : e.child <;>
      simp_all [parseJointElem]
  have hjoints : parseJoints num (pre ++ e :: post) = parseJoints num (pre ++ post) := by
    simp only [parseJoints, List.foldl_append, List.foldl_cons, hskip]
  simp only [parseUrdf, hjoints]

/-- C8 (witness): parsing with and without a parent-less joint element. -/
theorem parseUrdf_skips_incomplete_joint_witness :
    parseUrdf numNan ⟨docBasic.links, [elemNoParent]⟩
      = parseUrdf numNan ⟨docBasic.links, []⟩ :=
  parseUrdf_skips_incomplete_joint numNan docBasic.links [] [] elemNoParent
    (Or.inr (Or.inl rfl))

/-! ## C5: root-link selection -/

/-- C5: the parser's root link is a declared link name that never appears
as the child of an accepted joint; when every declared link appears as a
child the parse throws; and when exactly one declared link `z` is not a
child, `z` is selected. -/
theorem parseUrdf_root_selection (num : String → JsNumber) (doc : RobotDoc) :
    (∀ parsed, parseUrdf num doc = Except.ok parsed →
        parsed.rootLink ∈ (parseLinks num doc.links).map Prod.fst ∧
        (parseJoints num doc.joints).2.contains parsed.rootLink = false)
    ∧ ((∀ n ∈ (parseLinks num doc.links).map Prod.fst,
          (parseJoints num doc.joints).2.contains n = true) →
        parseUrdf num doc = Except.error ("Could not find root link in URDF."))
    ∧ (∀ z, z ∈ (parseLinks num doc.links).map Prod.fst →
        (parseJoints num doc.joints).2.contains z = false →
        (∀ n ∈ (parseLinks num doc.links).map Prod.fst, n ≠ z →
          (parseJoints num doc.joints).2.contains n = true) →
        ∀ parsed, parseUrdf num doc = Except.ok parsed → parsed.rootLink = z) := by
  refine ⟨?_, ?_, ?_⟩
  · intro parsed hok
    unfold parseUrdf at hok
    split at hok
    case h_1 r hfind =>
      obtain rfl := (Except.ok.inj hok).symm
      have hmem := List.mem_of_find?_eq_some hfind
      have hpred := List.find?_some hfind
      refine ⟨hmem, ?_⟩
      simp only [Bool.not_eq_true'] at hpred
      exact hpred
    case h_2 hfind => exact Except.noConfusion hok
  · intro hall
    have hfind : ((parseLinks num doc.links).map Prod.fst).find?
        (fun n => !((parseJoints num doc.joints).2.contains n)) = none := by
      rw [List.find?_eq_none]
      intro x hx
      rw [hall x hx]
      simp
    unfold parseUrdf
    rw [hfind]
  · intro z hz hznot hall parsed hok
    unfold parseUrdf at hok
    split at hok
    case h_1 r hfind =>
      obtain rfl := (Except.ok.inj hok).symm
      show r = z
      by_contra hne
      have hmem := List.mem_of_find?_eq_some hfind
      have hpred := List.find?_some hfind
      have hcontains := hall r hmem hne
      simp only [Bool.not_eq_true'] at hpred
      rw [hcontains] at hpred
      exact Bool.noConfusion hpred
    case h_2 hfind => exact Except.noConfusion hok

/-- C5 (witness): for the two-link document whose only non-child link is
`base`, the selected root is `base`. -/
theorem parseUrdf_root_selection_witness :
    parseUrdf numNan docBasic = Except.ok parsedBasic ∧ parsedBasic.rootLink = "base" :=
  ⟨by decide,
   (parseUrdf_root_selection numNan docBasic).2.2 ("base") (by decide) (by decide)
     (by decide) parsedBasic (by decide)⟩

/-! ## C4: depth-first joint-path resolution -/

theorem findSome_congr {α β : Type} (f g : α → Option β) :
    ∀ (l : List α), (∀ a ∈ l, f a = g a) → l.findSome? f = l.findSome? g
  | [], _ => rfl
  | a :: l, h => by
    rw [List.findSome?_cons, List.findSome?_cons, h a (List.mem_cons_self a l),
      findSome_congr f g l (fun x hx => h x (List.mem_cons_of_mem a hx))]

theorem findFuel_stable (urdf : ParsedUrdf) (rank : String → ℕ)
    (hrank : ∀ link j, j ∈ childJointsOf urdf link → rank j.child < rank link) :
    ∀ (n : ℕ) (cur : String), rank cur ≤ n →
      ∀ (f₁ f₂ : ℕ), rank cur < f₁ → rank cur < f₂ →
        ∀ (tgt : String), findFuel urdf f₁ cur tgt = findFuel urdf f₂ cur tgt := by
  intro n
  induction n with
  | zero =>
    intro cur hn f₁ f₂ h1 h2 tgt
    obtain ⟨g₁, rfl⟩ : ∃ g, f₁ = g + 1 := ⟨f₁ - 1, by omega⟩
    obtain ⟨g₂, rfl⟩ : ∃ g, f₂ = g + 1 := ⟨f₂ - 1, by omega⟩
    simp only [findFuel]
    by_cases hct : cur = tgt
    · rw [if_pos hct, if_pos hct]
    · rw [if_neg hct, if_neg hct]
      have hemp : childJointsOf urdf cur = [] := by
        cases hc : childJointsOf urdf cur with
        | nil => rfl
        | cons j js =>
          have := hrank cur j (by rw [hc]; exact List.mem_cons_self j js)
          omega
      rw [hemp]
      rfl
  | succ n ih =>
    intro cur hn f₁ f₂ h1 h2 tgt
    obtain ⟨g₁, rfl⟩ : ∃ g, f₁ = g + 1 := ⟨f₁ - 1, by omega⟩
    obtain ⟨g₂, rfl⟩ : ∃ g, f₂ = g + 1 := ⟨f₂ - 1, by omega⟩
    simp only [findFuel]
    by_cases hct : cur = tgt
    · rw [if_pos hct, if_pos hct]
    · rw [if_neg hct, if_neg hct]
      apply findSome_congr
      intro j hj
      have hcj := hrank cur j hj
      rw [ih j.child (by omega) g₁ g₂ (by omega) (by omega) tgt]

/-- C4: `findJointPathToLink` returns the empty path when the two links
coincide; otherwise it equals the first success, over the child joints in
stored order, of prepending the joint to the recursively found sub-path;
and it returns `none` when no child subtree reaches the target.  The
hypotheses say the parsed structure is tree-shaped: a rank decreases along
every child edge and is bounded by the joint count (as holds for every
tree).  Determinism over repeated calls is immediate because the embedding
is a pure function of the structure and the two names. -/
theorem findJointPathToLink_spec (urdf : ParsedUrdf) (rank : String → ℕ)
    (hrank : ∀ link j, j ∈ childJointsOf urdf link → rank j.child < rank link)
    (hbound : ∀ link, rank link ≤ totalJoints urdf)
    (currentLink targetLink : String) :
    (currentLink = targetLink →
       findJointPathToLink urdf currentLink targetLink = some [])
    ∧ (currentLink ≠ targetLink →
       findJointPathToLink urdf currentLink targetLink
         = (childJointsOf urdf currentLink).findSome?
             (fun joint => (findJointPathToLink urdf joint.child targetLink).map
               (fun path => joint :: path)))
    ∧ (currentLink ≠ targetLink →
       (∀ joint ∈ childJointsOf urdf currentLink,
          findJointPathToLink urdf joint.child targetLink = none) →
       findJointPathToLink urdf currentLink targetLink = none) := by
  have hpart1 : currentLink = targetLink →
      findJointPathToLink urdf currentLink targetLink = some [] := by
    intro h
    simp [findJointPathToLink, findFuel, h]
  have hpart2 : currentLink ≠ targetLink →
      findJointPathToLink urdf currentLink targetLink
        = (childJointsOf urdf currentLink).findSome?
            (fun joint => (findJointPathToLink urdf joint.child targetLink).map
              (fun path => joint :: path)) := by
    intro h
    show findFuel urdf (totalJoints urdf + 1) currentLink targetLink = _
    simp only [findFuel, if_neg h]
    apply findSome_congr
    intro j hj
    have hcj := hrank currentLink j hj
    have hb := hbound currentLink
    rw [findFuel_stable urdf rank hrank (totalJoints urdf) j.child (by omega)
      (totalJoints urdf) (totalJoints urdf + 1) (by omega) (by omega) targetLink]
    rfl
  refine ⟨hpart1, hpart2, ?_⟩
  intro h hall
  rw [hpart2 h, List.findSome?_eq_none_iff]
  intro j hj
  rw [hall j hj]
  rfl

/-- C4 (witness): the path equations applied to a structure with no joints
(rank constantly zero), on equal source and target. -/
theorem findJointPathToLink_spec_witness :
    findJointPathToLink urdfEmpty ("a") ("a") = some [] :=
  (findJointPathToLink_spec urdfEmpty (fun _ => 0)
    (fun link j hj => absurd hj (by simp [childJointsOf, getAssoc, urdfEmpty]))
    (fun _ => Nat.zero_le _) ("a") ("a")).1 rfl

end Lxv
